import Mathlib

/-!
Verification development for the InfraProof execution-proof protocol.

The definitions below are shallow embeddings of the repository's code:
the on-chain `ExecutionRegistry` contract (ledger state machine), the
backend hashing utilities (`hashJSON`, `hashArtifactFolder`), the artifact
pipeline (`createArtifactFolder`, `uploadToGreenfield`, `processArtifacts`,
the `/tasks/execute/:taskId` route), and the deterministic benchmark
(`isPrime` / CPU loop, memory checksum).

Machine integers (Solidity `uint256`, `bytes32`, addresses; JS numbers used
as exact integers) are modelled as `Nat`.  The external `keccak256`
function is an abstract parameter of every definition that hashes, since
its algorithm lives outside this repository; all claims proved here hold
for every choice of that parameter.
-/

namespace InfraProof

/-! ## Bytes and digests -/

/-- Byte strings, one `Nat` per byte. -/
abbrev Bytes := List Nat

/-- The 32-byte big-endian encoding of a 256-bit digest value, mirroring the
hex string `ethers.keccak256` returns (two hex characters per byte). -/
def digestBytes (h : Nat) : Bytes :=
  (List.range 32).map (fun k => h / 256 ^ (31 - k) % 256)

/-- Byte view of a string (the UTF-8 encoding abstraction used for file
contents built from log lines). -/
def strBytes (s : String) : Bytes :=
  s.data.map Char.toNat

/-! ## Ledger data model (`ExecutionRegistry.sol`) -/

/-- On-chain task record: `struct Task { address requester; bytes32 specHash; uint256 createdAt; }`. -/
structure Task where
  requester : Nat
  specHash : Nat
  createdAt : Nat
deriving DecidableEq

/-- On-chain receipt record:
`struct Receipt { address operator; bytes32 artifactHash; bytes32 resultHash; uint256 completedAt; }`. -/
structure Receipt where
  operator : Nat
  artifactHash : Nat
  resultHash : Nat
  completedAt : Nat
deriving DecidableEq

/-- The all-zero task record, the default value of the Solidity mapping. -/
def Task.zero : Task := ⟨0, 0, 0⟩

/-- The all-zero receipt record, the default value of the Solidity mapping. -/
def Receipt.zero : Receipt := ⟨0, 0, 0, 0⟩

/-- Contract storage: `nextTaskId`, `tasks` mapping, `receipts` mapping. -/
structure RegistryState where
  nextTaskId : Nat
  tasks : Nat → Task
  receipts : Nat → Receipt

/-- Freshly deployed contract: counter at `0`, both mappings all-zero. -/
def initialState : RegistryState :=
  ⟨0, fun _ => Task.zero, fun _ => Receipt.zero⟩

/-- Error kinds of the protocol, carrying the contract's revert message. -/
inductive LedgerError where
  | validation : String → LedgerError
  | notFound : String → LedgerError
  | conflict : String → LedgerError
deriving DecidableEq

/-- Revert message of `createTask` on a zero spec hash. -/
def specHashZeroMsg : String := "Spec hash cannot be zero"

/-- Revert message of `submitReceipt` for a missing task. -/
def taskNotExistMsg : String := "Task does not exist"

/-- Revert message of `submitReceipt` for a duplicate receipt. -/
def receiptExistsMsg : String := "Receipt already submitted"

/-- Revert message of `submitReceipt` on a zero artifact hash. -/
def artifactZeroMsg : String := "Artifact hash cannot be zero"

/-- Revert message of `submitReceipt` on a zero result hash. -/
def resultZeroMsg : String := "Result hash cannot be zero"

/-- `ExecutionRegistry.createTask(bytes32 specHash)`.  `sender` is
`msg.sender`, `time` is `block.timestamp`.  Returns the assigned task id
and the updated storage, or the revert error. -/
def createTask (s : RegistryState) (sender specHash time : Nat) :
    Except LedgerError (Nat × RegistryState) :=
  if specHash = 0 then .error (.validation specHashZeroMsg)
  else
    .ok (s.nextTaskId,
      { nextTaskId := s.nextTaskId + 1
        tasks := fun i => if i = s.nextTaskId then ⟨sender, specHash, time⟩ else s.tasks i
        receipts := s.receipts })

/-- `ExecutionRegistry.submitReceipt(uint256 taskId, bytes32 artifactHash, bytes32 resultHash)`,
with the contract's four `require` checks in source order. -/
def submitReceipt (s : RegistryState) (sender taskId artifactHash resultHash time : Nat) :
    Except LedgerError RegistryState :=
  if (s.tasks taskId).requester = 0 then .error (.notFound taskNotExistMsg)
  else if (s.receipts taskId).operator ≠ 0 then .error (.conflict receiptExistsMsg)
  else if artifactHash = 0 then .error (.validation artifactZeroMsg)
  else if resultHash = 0 then .error (.validation resultZeroMsg)
  else
    .ok { s with
          receipts := fun i =>
            if i = taskId then ⟨sender, artifactHash, resultHash, time⟩ else s.receipts i }

/-- Transaction-level view of `createTask`: a reverted call leaves the
contract storage unchanged. -/
def stepCreate (s : RegistryState) (sender specHash time : Nat) : RegistryState :=
  match createTask s sender specHash time with
  | .ok (_, s') => s'
  | .error _ => s

/-- Transaction-level view of `submitReceipt`: a reverted call leaves the
contract storage unchanged. -/
def stepSubmit (s : RegistryState) (sender taskId artifactHash resultHash time : Nat) :
    RegistryState :=
  match submitReceipt s sender taskId artifactHash resultHash time with
  | .ok s' => s'
  | .error _ => s

/-- Backend `getTask`: reads the raw `tasks` mapping (`contract.tasks(taskId)`). -/
def getTask (s : RegistryState) (taskId : Nat) : Task :=
  s.tasks taskId

/-- Backend `getReceipt` (`src/backend/contracts/executionRegistry.js`):
returns `null` when the stored operator is the zero address. -/
def getReceipt (s : RegistryState) (taskId : Nat) : Option Receipt :=
  if (s.receipts taskId).operator = 0 then none else some (s.receipts taskId)

/-- Task status reported by `GET /tasks/:taskId`. -/
def statusPending : String := "PENDING"

/-- Status string for a task with a receipt. -/
def statusCompleted : String := "COMPLETED"

/-- `const status = receipt ? 'COMPLETED' : 'PENDING'` in the route. -/
def taskStatus (s : RegistryState) (taskId : Nat) : String :=
  if (getReceipt s taskId).isSome then statusCompleted else statusPending

/-- Ledger states reachable from `s₀` by successful `createTask` /
`submitReceipt` transactions.  Callers are external accounts, whose
address is never the zero address on-chain (`sender ≠ 0`). -/
inductive ReachableFrom : RegistryState → RegistryState → Prop where
  | refl (s : RegistryState) : ReachableFrom s s
  | createStep {s₀ s s' : RegistryState} {sender h t id : Nat} :
      ReachableFrom s₀ s → sender ≠ 0 →
      createTask s sender h t = .ok (id, s') → ReachableFrom s₀ s'
  | submitStep {s₀ s s' : RegistryState} {sender id a r t : Nat} :
      ReachableFrom s₀ s → sender ≠ 0 →
      submitReceipt s sender id a r t = .ok s' → ReachableFrom s₀ s'

/-- States reachable from contract deployment. -/
def Reachable (s : RegistryState) : Prop :=
  ReachableFrom initialState s

/-- Lexicographic comparison of character lists: the comparison
JavaScript's default `Array.prototype.sort` applies to strings (by code
unit; identical to scalar-value order for the ASCII names in play). -/
def charListLe : List Char → List Char → Bool
  | [], _ => true
  | _ :: _, [] => false
  | a :: as, b :: bs =>
      if a < b then true
      else if b < a then false
      else charListLe as bs

/-- String comparison used to embed `.sort()` over name lists. -/
def strLe (a b : String) : Prop := charListLe a.data b.data = true

instance : DecidableRel strLe :=
  fun a b => inferInstanceAs (Decidable (charListLe a.data b.data = true))

/-! ## JSON serialization with a replacer array (`hashJSON`, `src/backend/utils/hash.js`)

`hashJSON` calls `JSON.stringify(obj, Object.keys(obj).sort())`.  Per the
ECMAScript `SerializeJSONObject` semantics, an array replacer is a
`PropertyList` that selects and orders the serialized keys of **every**
object encountered, nested ones included. -/

mutual
/-- JSON values restricted to the shapes a `TaskSpec` uses. -/
inductive JVal where
  | jstr : String → JVal
  | jnum : Nat → JVal
  | jobj : JFields → JVal

/-- Object fields of a `JVal`, in insertion order. -/
inductive JFields where
  | fnil : JFields
  | fcons : String → JVal → JFields → JFields
end

/-- First-match association lookup over serialized fields. -/
def lookupSer : List (String × String) → String → Option String
  | [], _ => none
  | (k, v) :: rest, key => if k = key then some v else lookupSer rest key

/-- JSON string escaping for the characters a quoted key or value can
contain here (quote and backslash; the specs in play use neither). -/
def jsonEscapeChar (c : Char) : String :=
  if c = '"' then "\\\""
  else if c = '\\' then "\\\\"
  else String.singleton c

/-- `QuoteJSONString`: double-quote a string, escaping its characters. -/
def jsonQuote (s : String) : String :=
  "\"" ++ String.join (s.data.map jsonEscapeChar) ++ "\""

mutual
/-- `JSON.stringify(v, K)` for an array replacer `K`: objects emit the keys
of `K` that are present, in `K` order, at every nesting level. -/
def stringifyWith (K : List String) : JVal → String
  | .jstr s => jsonQuote s
  | .jnum n => toString n
  | .jobj fs =>
      "\x7b" ++
        String.intercalate ","
          (K.filterMap (fun k =>
            (lookupSer (serFields K fs) k).map (fun sv => jsonQuote k ++ ":" ++ sv))) ++
      "\x7d"

/-- Serialize every field of an object under replacer `K`. -/
def serFields (K : List String) : JFields → List (String × String)
  | .fnil => []
  | .fcons k v rest => (k, stringifyWith K v) :: serFields K rest
end

/-- The key list of an object, in insertion order (`Object.keys`). -/
def jKeys : JFields → List String
  | .fnil => []
  | .fcons k _ rest => k :: jKeys rest

/-- `Object.keys(obj)` of a JSON value (`hashJSON` is only called on objects). -/
def objKeys : JVal → List String
  | .jobj fs => jKeys fs
  | _ => []

/-- The `sortedJSON` string computed inside `hashJSON`:
`JSON.stringify(obj, Object.keys(obj).sort())`.  JavaScript's default sort
is lexicographic on code units, matched by Lean's `String` order for the
ASCII keys in play. -/
def sortedJSON (v : JVal) : String :=
  stringifyWith (List.insertionSort strLe (objKeys v)) v

/-- `hashJSON`: keccak256 of the UTF-8 bytes of `sortedJSON`.  The external
keccak256 (composed with the injective UTF-8 encoding) is the abstract
parameter `keccak`. -/
def hashJSON (keccak : String → Nat) (v : JVal) : Nat :=
  keccak (sortedJSON v)

/-! ## Task specifications (`POST /tasks/create`) -/

/-- Benchmark configuration inside a task spec. -/
structure TaskConfig where
  cpuDurationMs : Nat
  memorySizeMB : Nat
  diskSizeMB : Nat
deriving DecidableEq

/-- The task specification built by the create route:
`{ type, duration, config: {cpuDurationMs, memorySizeMB, diskSizeMB}, createdAt }`. -/
structure TaskSpec where
  type : String
  duration : Nat
  config : TaskConfig
  createdAt : String
deriving DecidableEq

/-- JSON key `"type"`. -/
def typeKey : String := "type"

/-- JSON key `"duration"`. -/
def durationKey : String := "duration"

/-- JSON key `"config"`. -/
def configKey : String := "config"

/-- JSON key `"createdAt"`. -/
def createdAtKey : String := "createdAt"

/-- JSON key `"cpuDurationMs"`. -/
def cpuKey : String := "cpuDurationMs"

/-- JSON key `"memorySizeMB"`. -/
def memKey : String := "memorySizeMB"

/-- JSON key `"diskSizeMB"`. -/
def diskKey : String := "diskSizeMB"

/-- The JSON object literal the route passes to `hashJSON`, keys in
insertion order `type`, `duration`, `config`, `createdAt`. -/
def TaskSpec.toJVal (s : TaskSpec) : JVal :=
  .jobj
    (.fcons typeKey (.jstr s.type)
      (.fcons durationKey (.jnum s.duration)
        (.fcons configKey
          (.jobj
            (.fcons cpuKey (.jnum s.config.cpuDurationMs)
              (.fcons memKey (.jnum s.config.memorySizeMB)
                (.fcons diskKey (.jnum s.config.diskSizeMB) .fnil))))
          (.fcons createdAtKey (.jstr s.createdAt) .fnil))))

/-! ## Artifact folder hashing (`hashArtifactFolder`, `src/backend/utils/hash.js`) -/

/-- A directory entry as seen by `fs.readdir` + `fs.stat`: a name, the file
bytes, and whether the entry is a regular file. -/
structure DirEntry where
  name : String
  content : Bytes
  isFile : Bool
deriving DecidableEq

/-- Filename comparison on directory entries. -/
def nameLe (a b : DirEntry) : Prop := strLe a.name b.name

instance : DecidableRel nameLe := fun a b => inferInstanceAs (Decidable (strLe a.name b.name))

/-- Strict filename order on directory entries. -/
def nameLt (a b : DirEntry) : Prop := nameLe a b ∧ a.name ≠ b.name

/-- `hashArtifactFolder`: list the directory, sort filenames, content-hash
each regular file, append each digest's hex characters to `combinedHash`
(here: append its bytes), and hash the concatenation; an empty
`combinedHash` (no regular file) yields the hash of the empty byte
string (`keccak256('0x')`). -/
def hashArtifactFolder (keccak : Bytes → Nat) (entries : List DirEntry) : Nat :=
  let sorted := List.insertionSort nameLe entries
  let combined :=
    ((sorted.filter (fun e => e.isFile)).map (fun e => digestBytes (keccak e.content))).flatten
  if combined = [] then keccak [] else keccak combined

/-! ## Artifact pipeline (`src/backend/services/artifacts.js`) -/

/-- Filename `execution.log`. -/
def executionLogName : String := "execution.log"

/-- Filename `metrics.json`. -/
def metricsJsonName : String := "metrics.json"

/-- Filename `result.json`. -/
def resultJsonName : String := "result.json"

/-- Filename `receipt.json`. -/
def receiptJsonName : String := "receipt.json"

/-- `createArtifactFolder`: a clean folder holding `execution.log` (log
lines joined with newlines plus a trailing newline), `metrics.json` and
`result.json`.  The serialized metrics and benchmark-result documents are
abstract byte parameters (`JSON.stringify` output of the external JSON
library). -/
def createArtifactFolder (logs : List String) (metricsContent resultContent : Bytes) :
    List DirEntry :=
  [⟨executionLogName, strBytes (String.intercalate "\n" logs ++ "\n"), true⟩,
   ⟨metricsJsonName, metricsContent, true⟩,
   ⟨resultJsonName, resultContent, true⟩]

/-- First-match lookup of a regular file's bytes in a folder (`fs.readFile`). -/
def findContent : List DirEntry → String → Option Bytes
  | [], _ => none
  | e :: rest, n => if e.name = n then some e.content else findContent rest n

/-- The Greenfield Scan locator URL built for a task, the same fixed string
of the task id in every branch of `uploadToGreenfield`. -/
def greenfieldScanUrl (taskId : Nat) : String :=
  "https://testnet.greenfieldscan.com/bucket/0x0000000000000000000000000000000000000000000000000000000000005863?tab=object&keyword=task-"
    ++ toString taskId

/-- `uploadToGreenfield` with its three outcomes: storage not configured
(mock fallback), upload succeeded, upload threw (caught, mock fallback).
The function never aborts the cycle. -/
def uploadToGreenfield (configured uploadOk : Bool) (taskId : Nat) : String :=
  if !configured then greenfieldScanUrl taskId
  else if uploadOk then greenfieldScanUrl taskId
  else greenfieldScanUrl taskId

/-- Result of `processArtifacts`: the final folder (with `receipt.json`
appended after hashing), the locator URL and the two hashes. -/
structure ArtifactsOutput where
  folder : List DirEntry
  artifactUrl : String
  artifactHash : Nat
  resultHash : Nat

/-- `processArtifacts`: create the folder, upload (or fall back), compute
`artifactHash` over the folder before `receipt.json` exists, read back
`result.json` and hash its bytes for `resultHash`, then write
`receipt.json` (serialized receipt bytes abstracted as `receiptContent`). -/
def processArtifacts (keccak : Bytes → Nat) (configured uploadOk : Bool) (taskId : Nat)
    (metricsContent resultContent receiptContent : Bytes) (logs : List String) :
    ArtifactsOutput :=
  let folder := createArtifactFolder logs metricsContent resultContent
  let artifactUrl := uploadToGreenfield configured uploadOk taskId
  let artifactHash := hashArtifactFolder keccak folder
  let resultHash := keccak ((findContent folder resultJsonName).getD [])
  { folder := folder ++ [⟨receiptJsonName, receiptContent, true⟩]
    artifactUrl := artifactUrl
    artifactHash := artifactHash
    resultHash := resultHash }

/-- `POST /tasks/execute/:taskId`: run the benchmark (its serialized result
is `resultContent`), process artifacts, then submit the receipt on-chain;
a ledger failure fails the request, propagated untouched. -/
def executeTask (keccak : Bytes → Nat) (configured uploadOk : Bool) (s : RegistryState)
    (operator taskId : Nat) (metricsContent resultContent receiptContent : Bytes)
    (logs : List String) (time : Nat) :
    Except LedgerError (RegistryState × ArtifactsOutput) :=
  let out := processArtifacts keccak configured uploadOk taskId
    metricsContent resultContent receiptContent logs
  match submitReceipt s operator taskId out.artifactHash out.resultHash time with
  | .ok s' => .ok (s', out)
  | .error e => .error e

/-! ## CPU phase (`cpuTest`, `src/backend/services/benchmark.js`) -/

/-- The trial-division loop of the inner `isPrime`:
`for (let i = 5; i * i <= n; i += 6) if (n % i === 0 || n % (i + 2) === 0) return false`. -/
def trialLoop (n i : Nat) : Bool :=
  if i * i ≤ n then
    if n % i = 0 ∨ n % (i + 2) = 0 then false
    else trialLoop n (i + 6)
  else true
termination_by n + 1 - i
decreasing_by
  rename_i hguard _
  have hi : i ≤ n := by
    rcases Nat.eq_zero_or_pos i with h0 | hpos
    · omega
    · calc i = 1 * i := (Nat.one_mul i).symm
        _ ≤ i * i := Nat.mul_le_mul_right i hpos
        _ ≤ n := hguard
  omega

/-- The inner `isPrime` of the CPU phase, verbatim branch structure. -/
def isPrime (n : Nat) : Bool :=
  if n ≤ 1 then false
  else if n ≤ 3 then true
  else if n % 2 = 0 ∨ n % 3 = 0 then false
  else trialLoop n 5

/-- The CPU loop state after a number of passes of
`while (...) { if (isPrime(num)) primeCount++; num++; iterations++; }`,
starting from `num = 2`, `iterations = 0`, `primeCount = 0`.  Returns
`(num, iterations, primeCount)`. -/
def cpuLoop : Nat → Nat × Nat × Nat
  | 0 => (2, 0, 0)
  | p + 1 =>
      let st := cpuLoop p
      (st.1 + 1, st.2.1 + 1, if isPrime st.1 then st.2.2 + 1 else st.2.2)

/-! ## Memory phase (`memoryTest`, `src/backend/services/benchmark.js`)

JavaScript numbers are modelled as exact integers; for the values the
write/read passes produce this is the identity abstraction whenever the
running sum stays below 2^53. -/

/-- `const arraySize = (sizeMB * 1024 * 1024) / 8`. -/
def memArraySize (sizeMB : Nat) : Nat := sizeMB * 1024 * 1024 / 8

/-- The write pass: `array[i] = i * 2` for every `i` below `arraySize`. -/
def memWriteArray (arraySize : Nat) : List Nat :=
  (List.range arraySize).map (fun i => i * 2)

/-- The read pass: accumulate the array's values left to right (`sum += array[i]`). -/
def memReadSum (array : List Nat) : Nat :=
  array.foldl (fun sum v => sum + v) 0

/-- The reported memory checksum: `sum % 1000000` after the read pass over
the buffer the write pass filled. -/
def memChecksum (sizeMB : Nat) : Nat :=
  memReadSum (memWriteArray (memArraySize sizeMB)) % 1000000

/-! ## Concrete fixtures used by witness theorems -/

/-- A concrete stand-in for the abstract keccak parameter over bytes;
always positive, so concrete hashes are never the zero digest. -/
def kW : Bytes → Nat := fun b => b.foldl (fun a c => a + c) 1

/-- A two-file directory listing. -/
def entriesA : List DirEntry := [⟨"b.txt", [1, 2], true⟩, ⟨"a.txt", [3], true⟩]

/-- The same two files listed in the other order. -/
def entriesB : List DirEntry := [⟨"a.txt", [3], true⟩, ⟨"b.txt", [1, 2], true⟩]

/-- The benchmark task type string. -/
def benchTypeStr : String := "SERVER_BENCHMARK"

/-- A fixed ISO creation timestamp. -/
def isoDateStr : String := "2024-01-01T00:00:00.000Z"

/-- A concrete artifact-processing run. -/
def outW : ArtifactsOutput := processArtifacts kW true true 0 [7] [8] [9] ["line"]

/-- The ledger state after one concrete `createTask`. -/
def sInit : RegistryState := stepCreate initialState 1 5 10

/-- The ledger state after the concrete receipt submission for `outW`. -/
def sW : RegistryState := stepSubmit sInit 2 0 outW.artifactHash outW.resultHash 11

/-- A task spec with `memorySizeMB = 100`. -/
def specMemA : TaskSpec := ⟨benchTypeStr, 30, ⟨10000, 100, 10⟩, isoDateStr⟩

/-- The same task spec except `memorySizeMB = 200`. -/
def specMemB : TaskSpec := ⟨benchTypeStr, 30, ⟨10000, 200, 10⟩, isoDateStr⟩

end InfraProof

/-! # Theorems -/

namespace InfraProof

/-! ## Helper lemmas about the registry state machine -/

/-- Shape of a successful `createTask` call. -/
lemma createTask_ok_shape {s : RegistryState} {sender h t id : Nat} {s' : RegistryState}
    (hok : createTask s sender h t = .ok (id, s')) :
    h ≠ 0 ∧ id = s.nextTaskId ∧
      s' = { nextTaskId := s.nextTaskId + 1
             tasks := fun i => if i = s.nextTaskId then ⟨sender, h, t⟩ else s.tasks i
             receipts := s.receipts } := by
  by_cases hz : h = 0
  · simp [createTask, hz] at hok
  · simp [createTask, hz] at hok
    rcases hok with ⟨hid, hs⟩
    exact ⟨hz, hid.symm, hs.symm⟩

/-- Shape of a successful `submitReceipt` call. -/
lemma submitReceipt_ok_shape {s : RegistryState} {sender id a r t : Nat} {s' : RegistryState}
    (hok : submitReceipt s sender id a r t = .ok s') :
    (s.tasks id).requester ≠ 0 ∧ (s.receipts id).operator = 0 ∧ a ≠ 0 ∧ r ≠ 0 ∧
      s' = { s with
             receipts := fun i => if i = id then ⟨sender, a, r, t⟩ else s.receipts i } := by
  by_cases h1 : (s.tasks id).requester = 0
  · simp [submitReceipt, h1] at hok
  · by_cases h2 : (s.receipts id).operator = 0
    · by_cases h3 : a = 0
      · simp [submitReceipt, h1, h2, h3] at hok
      · by_cases h4 : r = 0
        · simp [submitReceipt, h1, h2, h3, h4] at hok
        · simp only [submitReceipt, if_neg h1, h2, ne_eq, not_true_eq_false, if_false,
            if_neg h3, if_neg h4, Except.ok.injEq] at hok
          exact ⟨h1, h2, h3, h4, hok.symm⟩
    · simp [submitReceipt, h1, h2] at hok

/-!  ## Claim theorems -/

/-- Claim C5: for every non-zero `specHash`, `createTask` succeeds and
`getTask` of the returned id yields a `Task` whose `specHash` equals the
input and whose `requester` equals the caller; `createTask` of the zero
digest fails with the `ValidationError` "Spec hash cannot be zero" and, as
a reverted transaction, leaves the registry state (hence `nextTaskId`)
unchanged. -/
theorem createTask_correct : ∀ (s : RegistryState) (sender h t : Nat),
    (h ≠ 0 → ∃ id s', createTask s sender h t = .ok (id, s') ∧
        (getTask s' id).requester = sender ∧ (getTask s' id).specHash = h) ∧
    createTask s sender 0 t = .error (.validation specHashZeroMsg) ∧
    stepCreate s sender 0 t = s := by
  intro s sender h t
  refine ⟨?_, ?_, ?_⟩
  · intro hne
    refine ⟨s.nextTaskId,
      { nextTaskId := s.nextTaskId + 1
        tasks := fun i => if i = s.nextTaskId then ⟨sender, h, t⟩ else s.tasks i
        receipts := s.receipts }, ?_, ?_, ?_⟩
    · simp [createTask, hne]
    · simp [getTask]
    · simp [getTask]
  · simp [createTask]
  · simp [stepCreate, createTask]

/-- Witness for C5 at concrete inputs. -/
theorem createTask_correct_witness :
    (∃ id s', createTask initialState 7 5 11 = .ok (id, s') ∧
      (getTask s' id).requester = 7 ∧ (getTask s' id).specHash = 5) ∧
    createTask initialState 7 0 11 = .error (.validation specHashZeroMsg) :=
  ⟨(createTask_correct initialState 7 5 11).1 (by decide),
   (createTask_correct initialState 7 0 11).2.1⟩

/-- Claim C3: `submitReceipt` fails with `NotFoundError` "Task does not
exist" when no task exists; with `ConflictError` "Receipt already
submitted" when a receipt already exists; with a `ValidationError` when
either hash is the zero digest; succeeds exactly when none of these hold,
persisting the receipt; and a second call for the same task id by any
caller fails with `ConflictError` and leaves the stored receipt's content
unchanged. -/
theorem submitReceipt_cases : ∀ (s : RegistryState) (sender id a r t : Nat),
    ((s.tasks id).requester = 0 →
        submitReceipt s sender id a r t = .error (.notFound taskNotExistMsg)) ∧
    ((s.tasks id).requester ≠ 0 → (s.receipts id).operator ≠ 0 →
        submitReceipt s sender id a r t = .error (.conflict receiptExistsMsg)) ∧
    ((s.tasks id).requester ≠ 0 → (s.receipts id).operator = 0 → a = 0 →
        submitReceipt s sender id a r t = .error (.validation artifactZeroMsg)) ∧
    ((s.tasks id).requester ≠ 0 → (s.receipts id).operator = 0 → a ≠ 0 → r = 0 →
        submitReceipt s sender id a r t = .error (.validation resultZeroMsg)) ∧
    ((∃ s', submitReceipt s sender id a r t = .ok s') ↔
        ((s.tasks id).requester ≠ 0 ∧ (s.receipts id).operator = 0 ∧ a ≠ 0 ∧ r ≠ 0)) ∧
    (∀ s', submitReceipt s sender id a r t = .ok s' →
        s'.receipts id = ⟨sender, a, r, t⟩ ∧
        (sender ≠ 0 → ∀ sender₂ a₂ r₂ t₂,
          submitReceipt s' sender₂ id a₂ r₂ t₂ = .error (.conflict receiptExistsMsg) ∧
          stepSubmit s' sender₂ id a₂ r₂ t₂ = s' ∧
          (stepSubmit s' sender₂ id a₂ r₂ t₂).receipts id = ⟨sender, a, r, t⟩)) := by
  intro s sender id a r t
  refine ⟨?_, ?_, ?_, ?_, ?_, ?_⟩
  · intro h1; simp [submitReceipt, h1]
  · intro h1 h2; simp [submitReceipt, h1, h2]
  · intro h1 h2 h3; simp [submitReceipt, h1, h2, h3]
  · intro h1 h2 h3 h4; simp [submitReceipt, h1, h2, h3, h4]
  · constructor
    · rintro ⟨s', hs'⟩
      obtain ⟨h1, h2, h3, h4, _⟩ := submitReceipt_ok_shape hs'
      exact ⟨h1, h2, h3, h4⟩
    · rintro ⟨h1, h2, h3, h4⟩
      refine ⟨{ s with
        receipts := fun i => if i = id then ⟨sender, a, r, t⟩ else s.receipts i }, ?_⟩
      simp [submitReceipt, h1, h2, h3, h4]
  · intro s' hs'
    obtain ⟨h1, h2, h3, h4, hstate⟩ := submitReceipt_ok_shape hs'
    subst hstate
    refine ⟨by simp, ?_⟩
    intro hsender sender₂ a₂ r₂ t₂
    have hreq : ((fun i => if i = id then (⟨sender, a, r, t⟩ : Receipt) else s.receipts i) id).operator ≠ 0 := by
      simp [hsender]
    refine ⟨?_, ?_, ?_⟩
    · simp [submitReceipt, h1, hsender]
    · simp [stepSubmit, submitReceipt, h1, hsender]
    · simp [stepSubmit, submitReceipt, h1, hsender]

/-- Witness for C3: a full first-then-second submission at concrete
inputs. -/
theorem submitReceipt_cases_witness :
    submitReceipt (stepCreate initialState 1 5 10) 2 0 3 4 20 =
      .ok (stepSubmit (stepCreate initialState 1 5 10) 2 0 3 4 20) ∧
    (stepSubmit (stepCreate initialState 1 5 10) 2 0 3 4 20).receipts 0 = ⟨2, 3, 4, 20⟩ ∧
    submitReceipt (stepSubmit (stepCreate initialState 1 5 10) 2 0 3 4 20) 9 0 6 7 30 =
      .error (.conflict receiptExistsMsg) := by
  have hok : submitReceipt (stepCreate initialState 1 5 10) 2 0 3 4 20 =
      .ok (stepSubmit (stepCreate initialState 1 5 10) 2 0 3 4 20) := rfl
  have h := (submitReceipt_cases (stepCreate initialState 1 5 10) 2 0 3 4 20).2.2.2.2.2
    _ hok
  exact ⟨hok, h.1, (h.2 (by decide) 9 6 7 30).1⟩

/-- Along any sequence of successful ledger transactions, `nextTaskId`
never decreases and every already-assigned task record is untouched. -/
lemma reachableFrom_mono {s s' : RegistryState} (h : ReachableFrom s s') :
    s.nextTaskId ≤ s'.nextTaskId ∧ ∀ id, id < s.nextTaskId → s'.tasks id = s.tasks id := by
  induction h with
  | refl => exact ⟨le_rfl, fun _ _ => rfl⟩
  | createStep hreach hsender hok ih =>
      obtain ⟨-, -, hs⟩ := createTask_ok_shape hok
      subst hs
      refine ⟨by simpa using Nat.le_succ_of_le ih.1, ?_⟩
      intro id hid
      have hlt : id < _ := lt_of_lt_of_le hid ih.1
      simp only [Nat.ne_of_lt hlt, if_false]
      exact ih.2 id hid
  | submitStep hreach hsender hok ih =>
      obtain ⟨-, -, -, -, hs⟩ := submitReceipt_ok_shape hok
      subst hs
      exact ih

/-- Claim C6: task ids are assigned monotonically from 0 by the registry:
the first successful `createTask` returns id 0, every successful
`createTask` returns the current `nextTaskId` and advances it by one (so
consecutive successes return consecutive ids), an assigned task record is
immutable under all later operations, and a later `createTask` can never
return an id already assigned. -/
theorem taskId_monotonic :
    (∀ sender h t id s', createTask initialState sender h t = .ok (id, s') → id = 0) ∧
    (∀ (s : RegistryState) sender h t id s', createTask s sender h t = .ok (id, s') →
        id = s.nextTaskId ∧ s'.nextTaskId = s.nextTaskId + 1 ∧ s'.tasks id = ⟨sender, h, t⟩) ∧
    (∀ s s' : RegistryState, ReachableFrom s s' →
        s.nextTaskId ≤ s'.nextTaskId ∧ ∀ id, id < s.nextTaskId → s'.tasks id = s.tasks id) ∧
    (∀ (s : RegistryState) sender h t id s₁, createTask s sender h t = .ok (id, s₁) →
        ∀ s₂ : RegistryState, ReachableFrom s₁ s₂ → ∀ sender₂ h₂ t₂ id₂ s₃,
          createTask s₂ sender₂ h₂ t₂ = .ok (id₂, s₃) → id ≠ id₂) := by
  refine ⟨?_, ?_, ?_, ?_⟩
  · intro sender h t id s' hok
    exact (createTask_ok_shape hok).2.1
  · intro s sender h t id s' hok
    obtain ⟨-, hid, hs⟩ := createTask_ok_shape hok
    subst hs
    subst hid
    exact ⟨rfl, rfl, by simp⟩
  · intro s s' h
    exact reachableFrom_mono h
  · intro s sender h t id s₁ hok s₂ hre sender₂ h₂ t₂ id₂ s₃ hok₂
    obtain ⟨-, hid, hs₁⟩ := createTask_ok_shape hok
    obtain ⟨-, hid₂, -⟩ := createTask_ok_shape hok₂
    have hmono := (reachableFrom_mono hre).1
    subst hs₁
    simp only at hmono
    omega

/-- Witness for C6: the first concrete creation gets id 0 and assigns the
record; the second gets id 1. -/
theorem taskId_monotonic_witness :
    (0 : Nat) = initialState.nextTaskId ∧
    (stepCreate initialState 1 5 9).nextTaskId = initialState.nextTaskId + 1 ∧
    (stepCreate initialState 1 5 9).tasks 0 = ⟨1, 5, 9⟩ :=
  taskId_monotonic.2.1 initialState 1 5 9 0 (stepCreate initialState 1 5 9) rfl

/-- In every reachable ledger state a receipts slot is either still the
all-zero default or holds a receipt whose operator is non-zero. -/
lemma reachable_receipts_sound {s : RegistryState} (h : Reachable s) :
    ∀ id, s.receipts id = Receipt.zero ∨ (s.receipts id).operator ≠ 0 := by
  unfold Reachable at h
  induction h with
  | refl => intro id; left; rfl
  | createStep hreach hsender hok ih =>
      obtain ⟨-, -, hs⟩ := createTask_ok_shape hok
      subst hs
      exact ih
  | submitStep hreach hsender hok ih =>
      rename_i smid sender id a r t
      obtain ⟨-, -, -, -, hs⟩ := submitReceipt_ok_shape hok
      subst hs
      intro id'
      by_cases hid : id' = id
      · right
        simp [hid]
        exact hsender
      · simp only [if_neg hid]
        exact ih id'

/-- Claim C10: the backend's `getReceipt` treats a zero operator as the
"no receipt" sentinel; in every reachable ledger state this is sound
(`none` exactly when the receipts slot is still the untouched all-zero
default, i.e. no receipt was ever stored); and the status reported by
`GET /tasks/:taskId` is `PENDING` iff no receipt exists and `COMPLETED`
iff one does. -/
theorem getReceipt_pending_completed : ∀ (s : RegistryState) (id : Nat),
    (getReceipt s id = none ↔ (s.receipts id).operator = 0) ∧
    (Reachable s → (getReceipt s id = none ↔ s.receipts id = Receipt.zero)) ∧
    (taskStatus s id = statusPending ↔ getReceipt s id = none) ∧
    (taskStatus s id = statusCompleted ↔ getReceipt s id ≠ none) := by
  intro s id
  have hbase : getReceipt s id = none ↔ (s.receipts id).operator = 0 := by
    unfold getReceipt
    by_cases h : (s.receipts id).operator = 0 <;> simp [h]
  refine ⟨hbase, ?_, ?_, ?_⟩
  · intro hreach
    rw [hbase]
    constructor
    · intro hop
      rcases reachable_receipts_sound hreach id with hz | hnz
      · exact hz
      · exact absurd hop hnz
    · intro hz
      rw [hz]
      rfl
  · unfold taskStatus
    by_cases h : (getReceipt s id).isSome
    · rw [if_pos h]
      simp [Option.isSome_iff_ne_none] at h
      simp [h, statusPending, statusCompleted]
    · rw [if_neg h]
      simp [Option.not_isSome_iff_eq_none] at h
      simp [h]
  · unfold taskStatus
    by_cases h : (getReceipt s id).isSome
    · rw [if_pos h]
      simp [Option.isSome_iff_ne_none] at h
      simp [h]
    · rw [if_neg h]
      simp [Option.not_isSome_iff_eq_none] at h
      simp [h, statusPending, statusCompleted]

/-- Witness for C10: at deployment (a reachable state) task 0 has no
receipt and reports `PENDING`; after a concrete create-then-submit run it
reports `COMPLETED`. -/
theorem getReceipt_pending_completed_witness :
    getReceipt initialState 0 = none ∧ taskStatus initialState 0 = statusPending := by
  have h := getReceipt_pending_completed initialState 0
  have hnone : getReceipt initialState 0 = none :=
    (h.2.1 (ReachableFrom.refl _)).mpr rfl
  exact ⟨hnone, h.2.2.1.mpr hnone⟩

/-- `charListLe` is total. -/
lemma charListLe_total : ∀ x y : List Char, charListLe x y = true ∨ charListLe y x = true := by
  intro x
  induction x with
  | nil => intro y; left; rfl
  | cons a as ih =>
      intro y
      cases y with
      | nil => right; rfl
      | cons b bs =>
          by_cases hab : a < b
          · left; simp [charListLe, hab]
          · by_cases hba : b < a
            · right; simp [charListLe, hba]
            · rcases ih bs with h | h
              · left; simp [charListLe, hab, hba, h]
              · right; simp [charListLe, hab, hba, h]

/-- `charListLe` is transitive. -/
lemma charListLe_trans : ∀ x y z : List Char,
    charListLe x y = true → charListLe y z = true → charListLe x z = true := by
  intro x
  induction x with
  | nil => intro y z _ _; rfl
  | cons a as ih =>
      intro y z hxy hyz
      cases y with
      | nil => simp [charListLe] at hxy
      | cons b bs =>
          cases z with
          | nil => simp [charListLe] at hyz
          | cons c cs =>
              simp only [charListLe] at hxy hyz ⊢
              by_cases hab : a < b <;> by_cases hbc : b < c
              · simp [lt_trans hab hbc]
              · have hcb : ¬ c < b := by
                  intro hcb
                  rw [if_neg hbc, if_pos hcb] at hyz
                  exact Bool.noConfusion hyz
                have hbceq : b = c := le_antisymm (not_lt.mp hcb) (not_lt.mp hbc)
                subst hbceq
                simp [hab]
              · have hba : ¬ b < a := by
                  intro hba
                  rw [if_neg hab, if_pos hba] at hxy
                  exact Bool.noConfusion hxy
                have habeq : a = b := le_antisymm (not_lt.mp hba) (not_lt.mp hab)
                subst habeq
                simp [hbc]
              · have hba : ¬ b < a := by
                  intro hba
                  rw [if_neg hab, if_pos hba] at hxy
                  exact Bool.noConfusion hxy
                have hcb : ¬ c < b := by
                  intro hcb
                  rw [if_neg hbc, if_pos hcb] at hyz
                  exact Bool.noConfusion hyz
                have habeq : a = b := le_antisymm (not_lt.mp hba) (not_lt.mp hab)
                have hbceq : b = c := le_antisymm (not_lt.mp hcb) (not_lt.mp hbc)
                subst habeq
                subst hbceq
                rw [if_neg hab, if_neg hba] at hxy hyz ⊢
                exact ih bs cs hxy hyz

/-- `charListLe` is antisymmetric. -/
lemma charListLe_antisymm : ∀ x y : List Char,
    charListLe x y = true → charListLe y x = true → x = y := by
  intro x
  induction x with
  | nil =>
      intro y hxy hyx
      cases y with
      | nil => rfl
      | cons b bs => simp [charListLe] at hyx
  | cons a as ih =>
      intro y hxy hyx
      cases y with
      | nil => simp [charListLe] at hxy
      | cons b bs =>
          simp only [charListLe] at hxy hyx
          by_cases hab : a < b
          · rw [if_neg (lt_asymm hab), if_pos hab] at hyx
            exact Bool.noConfusion hyx
          · by_cases hba : b < a
            · rw [if_neg hab, if_pos hba] at hxy
              exact Bool.noConfusion hxy
            · have habeq : a = b := le_antisymm (not_lt.mp hba) (not_lt.mp hab)
              subst habeq
              rw [if_neg hab, if_neg hba] at hxy hyx
              exact congrArg (a :: ·) (ih bs hxy hyx)

instance : IsTotal DirEntry nameLe := ⟨fun a b => charListLe_total a.name.data b.name.data⟩

instance : IsTrans DirEntry nameLe :=
  ⟨fun _ _ _ h h' => charListLe_trans _ _ _ h h'⟩

instance : IsAntisymm DirEntry nameLt :=
  ⟨fun a b h h' =>
    absurd (congrArg String.mk (charListLe_antisymm a.name.data b.name.data h.1 h'.1)) h.2⟩

/-- Two listings of the same file set (a permutation with no duplicate
filename) sort to the same list. -/
lemma insertionSort_eq_of_perm {l₁ l₂ : List DirEntry} (hperm : l₁.Perm l₂)
    (hnodup : (l₁.map DirEntry.name).Nodup) :
    List.insertionSort nameLe l₁ = List.insertionSort nameLe l₂ := by
  have p₁ := List.perm_insertionSort nameLe l₁
  have p₂ := List.perm_insertionSort nameLe l₂
  have hp : List.Perm (List.insertionSort nameLe l₁) (List.insertionSort nameLe l₂) :=
    (p₁.trans hperm).trans p₂.symm
  have hs₁ := List.sorted_insertionSort nameLe l₁
  have hs₂ := List.sorted_insertionSort nameLe l₂
  have hnodup₂ : (l₂.map DirEntry.name).Nodup := ((hperm.map DirEntry.name).nodup_iff).mp hnodup
  have hstrict : ∀ (l : List DirEntry), List.Sorted nameLe (List.insertionSort nameLe l) →
      (l.map DirEntry.name).Nodup → List.Sorted nameLt (List.insertionSort nameLe l) := by
    intro l hs hn
    have hn' : ((List.insertionSort nameLe l).map DirEntry.name).Nodup :=
      (((List.perm_insertionSort nameLe l).map DirEntry.name).nodup_iff).mpr hn
    have hne : (List.insertionSort nameLe l).Pairwise (fun a b => a.name ≠ b.name) :=
      List.pairwise_map.mp hn'
    exact (hs.and hne).imp (fun h => ⟨h.1, h.2⟩)
  exact List.eq_of_perm_of_sorted hp (hstrict l₁ hs₁ hnodup) (hstrict l₂ hs₂ hnodup₂)

/-- Claim C4: `hashArtifactFolder` hashes the concatenation of the
per-file content hashes taken in lexicographically sorted filename order,
skipping non-files; an empty directory, or one with no regular file,
yields the hash of the empty byte string; and the hash depends only on
the set of (filename, content) pairs, not on the listing order. -/
theorem hashArtifactFolder_correct : ∀ (keccak : Bytes → Nat),
    hashArtifactFolder keccak [] = keccak [] ∧
    (∀ entries : List DirEntry, (∀ e ∈ entries, e.isFile = false) →
        hashArtifactFolder keccak entries = keccak []) ∧
    (∀ l₁ l₂ : List DirEntry, l₁.Perm l₂ → (l₁.map DirEntry.name).Nodup →
        hashArtifactFolder keccak l₁ = hashArtifactFolder keccak l₂) := by
  intro keccak
  refine ⟨rfl, ?_, ?_⟩
  · intro entries hnofile
    unfold hashArtifactFolder
    have hfilter : (List.insertionSort nameLe entries).filter (fun e => e.isFile) = [] := by
      rw [List.filter_eq_nil_iff]
      intro e he
      have := hnofile e ((List.perm_insertionSort nameLe entries).mem_iff.mp he)
      simp [this]
    simp [hfilter]
  · intro l₁ l₂ hperm hnodup
    unfold hashArtifactFolder
    rw [insertionSort_eq_of_perm hperm hnodup]

/-- Witness for C4: two concrete listing orders of the same two files
hash identically. -/
theorem hashArtifactFolder_correct_witness :
    hashArtifactFolder kW entriesA = hashArtifactFolder kW entriesB ∧
    hashArtifactFolder kW [] = kW [] :=
  ⟨(hashArtifactFolder_correct kW).2.2 entriesA entriesB (by decide) (by decide),
   (hashArtifactFolder_correct kW).1⟩

/-- The read pass over the written buffer sums to `n * (n - 1)`. -/
lemma memReadSum_memWriteArray : ∀ n, memReadSum (memWriteArray n) = n * (n - 1) := by
  intro n
  induction n with
  | zero => rfl
  | succ n ih =>
      unfold memWriteArray at ih ⊢
      rw [List.range_succ, List.map_append]
      unfold memReadSum at ih ⊢
      rw [List.foldl_append, ih]
      cases n with
      | zero => rfl
      | succ m =>
          simp only [List.map_cons, List.map_nil, List.foldl_cons, List.foldl_nil,
            Nat.succ_sub_one]
          ring

/-- Claim C8: the memory phase's checksum is fully determined by the
configuration: with `N = memorySizeMB * 1024 * 1024 / 8`, the read pass
accumulates exactly the written values `2 * i`, so the checksum equals
`(sum of 2 * i for i below N) mod 1,000,000`, i.e. `N * (N - 1) mod 1,000,000`. -/
theorem memoryChecksum_formula : ∀ sizeMB : Nat,
    memChecksum sizeMB = (∑ i ∈ Finset.range (memArraySize sizeMB), 2 * i) % 1000000 ∧
    memChecksum sizeMB = (memArraySize sizeMB * (memArraySize sizeMB - 1)) % 1000000 := by
  intro sizeMB
  have hsum : (∑ i ∈ Finset.range (memArraySize sizeMB), 2 * i) =
      memArraySize sizeMB * (memArraySize sizeMB - 1) := by
    rw [← Finset.sum_range_id_mul_two (memArraySize sizeMB)]
    rw [Finset.sum_mul]
    exact Finset.sum_congr rfl (fun i _ => by ring)
  have hfold := memReadSum_memWriteArray (memArraySize sizeMB)
  constructor
  · unfold memChecksum
    rw [hfold, hsum]
  · unfold memChecksum
    rw [hfold]

/-- Claim C9: `uploadToGreenfield` returns the same deterministic locator
string of the task id in every branch (not configured, upload succeeded,
upload failed), and a storage failure changes nothing else: the computed
`artifactHash`/`resultHash` and the whole execution cycle, including the
receipt submission, are identical to the success case. -/
theorem storage_fallback_independent :
    (∀ (configured uploadOk : Bool) (taskId : Nat),
        uploadToGreenfield configured uploadOk taskId = greenfieldScanUrl taskId) ∧
    (∀ (keccak : Bytes → Nat) (c₁ u₁ c₂ u₂ : Bool) (taskId : Nat)
        (mc rc rcpt : Bytes) (logs : List String),
        processArtifacts keccak c₁ u₁ taskId mc rc rcpt logs =
          processArtifacts keccak c₂ u₂ taskId mc rc rcpt logs) ∧
    (∀ (keccak : Bytes → Nat) (c₁ u₁ c₂ u₂ : Bool) (s : RegistryState)
        (operator taskId : Nat) (mc rc rcpt : Bytes) (logs : List String) (time : Nat),
        executeTask keccak c₁ u₁ s operator taskId mc rc rcpt logs time =
          executeTask keccak c₂ u₂ s operator taskId mc rc rcpt logs time) := by
  have hurl : ∀ (configured uploadOk : Bool) (taskId : Nat),
      uploadToGreenfield configured uploadOk taskId = greenfieldScanUrl taskId := by
    intro c u taskId
    cases c <;> cases u <;> rfl
  refine ⟨hurl, ?_, ?_⟩
  · intro keccak c₁ u₁ c₂ u₂ taskId mc rc rcpt logs
    unfold processArtifacts
    rw [hurl, hurl]
  · intro keccak c₁ u₁ c₂ u₂ s operator taskId mc rc rcpt logs time
    unfold executeTask
    cases c₁ <;> cases u₁ <;> cases c₂ <;> cases u₂ <;> rfl

/-- Reading `result.json` back from the freshly created artifact folder
returns the serialized benchmark result that was written into it. -/
lemma findContent_result (logs : List String) (mc rc : Bytes) :
    findContent (createArtifactFolder logs mc rc) resultJsonName = some rc := by
  simp [createArtifactFolder, findContent, executionLogName, metricsJsonName, resultJsonName]

/-- The same read still returns it after `receipt.json` is appended. -/
lemma findContent_result_with_receipt (logs : List String) (mc rc rcpt : Bytes) :
    findContent (createArtifactFolder logs mc rc ++ [⟨receiptJsonName, rcpt, true⟩])
      resultJsonName = some rc := by
  simp [createArtifactFolder, findContent, executionLogName, metricsJsonName, resultJsonName]

/-- Claim C1: whenever an execution cycle completes (the receipt
submission succeeds), the `resultHash` recorded on the ledger for that
task id is exactly the content hash of the `result.json` stored in the
produced artifact folder, so recomputing the content hash of the stored
`result.json` reproduces the ledger value. -/
theorem resultHash_matches_ledger : ∀ (keccak : Bytes → Nat) (configured uploadOk : Bool)
    (s : RegistryState) (operator taskId : Nat) (mc rc rcpt : Bytes) (logs : List String)
    (time : Nat) (s' : RegistryState) (out : ArtifactsOutput),
    executeTask keccak configured uploadOk s operator taskId mc rc rcpt logs time =
      .ok (s', out) →
    (s'.receipts taskId).resultHash = keccak ((findContent out.folder resultJsonName).getD []) ∧
    (s'.receipts taskId).resultHash = keccak rc := by
  intro keccak c u s operator taskId mc rc rcpt logs time s' out hok
  simp only [executeTask] at hok
  cases hsub : submitReceipt s operator taskId
      (processArtifacts keccak c u taskId mc rc rcpt logs).artifactHash
      (processArtifacts keccak c u taskId mc rc rcpt logs).resultHash time with
  | error e =>
      rw [hsub] at hok
      exact absurd hok (by simp)
  | ok s₁ =>
      rw [hsub] at hok
      simp only [Except.ok.injEq, Prod.mk.injEq] at hok
      obtain ⟨hs₁, hout⟩ := hok
      subst hs₁
      subst hout
      obtain ⟨-, -, -, -, hshape⟩ := submitReceipt_ok_shape hsub
      subst hshape
      have hrh : (processArtifacts keccak c u taskId mc rc rcpt logs).resultHash = keccak rc := by
        simp [processArtifacts, findContent_result]
      have hfold : (findContent (processArtifacts keccak c u taskId mc rc rcpt logs).folder
          resultJsonName).getD [] = rc := by
        simp [processArtifacts, findContent_result_with_receipt]
      constructor
      · simp [hfold, hrh]
      · simp [hrh]

/-- Witness for C1: a full concrete cycle; the ledger's stored result
hash equals the recomputed content hash of the stored `result.json`. -/
theorem resultHash_matches_ledger_witness :
    executeTask kW true true sInit 2 0 [7] [8] [9] ["line"] 11 = .ok (sW, outW) ∧
    (sW.receipts 0).resultHash = kW ((findContent outW.folder resultJsonName).getD []) ∧
    (sW.receipts 0).resultHash = kW [8] := by
  have hok : executeTask kW true true sInit 2 0 [7] [8] [9] ["line"] 11 = .ok (sW, outW) := by
    rfl
  exact ⟨hok, resultHash_matches_ledger kW true true sInit 2 0 [7] [8] [9] ["line"] 11 sW outW hok⟩

/-- Claim C2 (failing-input evaluation): `hashJSON` serializes with
`JSON.stringify(obj, Object.keys(obj).sort())`, and the array replacer
filters the keys of **nested** objects as well, so the nested `config`
keys (`cpuDurationMs`, `memorySizeMB`, `diskSizeMB`) are dropped and
`config` serializes as an empty object.  Two task specs that differ only
in `config.memorySizeMB` (100 vs 200) therefore serialize to the same
`sortedJSON` string and hash identically under every keccak — refuting
"equal hashes iff logically equal specs". -/
theorem hashJSON_drops_nested_config :
    specMemA ≠ specMemB ∧
    specMemA.config.memorySizeMB ≠ specMemB.config.memorySizeMB ∧
    sortedJSON specMemA.toJVal = sortedJSON specMemB.toJVal ∧
    ∀ keccak : String → Nat,
      hashJSON keccak specMemA.toJVal = hashJSON keccak specMemB.toJVal := by
  have hser : sortedJSON specMemA.toJVal = sortedJSON specMemB.toJVal := by decide
  exact ⟨by decide, by decide, hser, fun keccak => congrArg keccak hser⟩

/-- A `false` answer of the trial loop always comes from an actual proper
divisor of `n`. -/
lemma trialLoop_false_divisor (n : Nat) : ∀ i, 5 ≤ i → trialLoop n i = false →
    ∃ j, 5 ≤ j ∧ j < n ∧ n % j = 0 := by
  intro i
  induction i using trialLoop.induct (n := n) with
  | case1 x hguard hdiv =>
      intro h5 _
      have hx2 : x * 2 ≤ x * x := Nat.mul_le_mul_left x (by omega)
      have hx3 : x * 3 ≤ x * x := Nat.mul_le_mul_left x (by omega)
      rcases hdiv with hd | hd
      · exact ⟨x, h5, by omega, hd⟩
      · exact ⟨x + 2, by omega, by omega, hd⟩
  | case2 x hguard hdiv ih =>
      intro h5 hf
      unfold trialLoop at hf
      rw [if_pos hguard, if_neg hdiv] at hf
      exact ih (by omega) hf
  | case3 x hguard =>
      intro h5 hf
      unfold trialLoop at hf
      rw [if_neg hguard] at hf
      exact Bool.noConfusion hf

/-- If `n` has a divisor `i + 6k` within the scan bound, the trial loop
started at `i` answers `false`. -/
lemma trialLoop_false_of_divisorA (n : Nat) : ∀ k i, n % (i + 6 * k) = 0 →
    (i + 6 * k) * (i + 6 * k) ≤ n → trialLoop n i = false := by
  intro k
  induction k with
  | zero =>
      intro i hdvd hsq
      simp only [Nat.mul_zero, Nat.add_zero] at hdvd hsq
      unfold trialLoop
      rw [if_pos hsq, if_pos (Or.inl hdvd)]
  | succ k ih =>
      intro i hdvd hsq
      have hle : i ≤ i + 6 * (k + 1) := by omega
      have hguard : i * i ≤ n := le_trans (Nat.mul_le_mul hle hle) hsq
      unfold trialLoop
      rw [if_pos hguard]
      by_cases hd : n % i = 0 ∨ n % (i + 2) = 0
      · rw [if_pos hd]
      · rw [if_neg hd]
        have heq : i + 6 + 6 * k = i + 6 * (k + 1) := by ring
        exact ih (i + 6) (by rw [heq]; exact hdvd) (by rw [heq]; exact hsq)

/-- If `n` has a divisor `i + 6k + 2` and `i + 6k` is within the scan
bound, the trial loop started at `i` answers `false`. -/
lemma trialLoop_false_of_divisorB (n : Nat) : ∀ k i, n % (i + 6 * k + 2) = 0 →
    (i + 6 * k) * (i + 6 * k) ≤ n → trialLoop n i = false := by
  intro k
  induction k with
  | zero =>
      intro i hdvd hsq
      simp only [Nat.mul_zero, Nat.add_zero] at hdvd hsq
      unfold trialLoop
      rw [if_pos hsq, if_pos (Or.inr hdvd)]
  | succ k ih =>
      intro i hdvd hsq
      have hle : i ≤ i + 6 * (k + 1) := by omega
      have hguard : i * i ≤ n := le_trans (Nat.mul_le_mul hle hle) hsq
      unfold trialLoop
      rw [if_pos hguard]
      by_cases hd : n % i = 0 ∨ n % (i + 2) = 0
      · rw [if_pos hd]
      · rw [if_neg hd]
        have heq2 : i + 6 + 6 * k + 2 = i + 6 * (k + 1) + 2 := by ring
        have heq : i + 6 + 6 * k = i + 6 * (k + 1) := by ring
        exact ih (i + 6) (by rw [heq2]; exact hdvd) (by rw [heq]; exact hsq)

/-- The embedded `isPrime` decides primality. -/
lemma isPrime_iff (n : Nat) : isPrime n = true ↔ Nat.Prime n := by
  constructor
  · intro h
    unfold isPrime at h
    by_cases h1 : n ≤ 1
    · rw [if_pos h1] at h
      exact Bool.noConfusion h
    · rw [if_neg h1] at h
      by_cases h3 : n ≤ 3
      · have hn : n = 2 ∨ n = 3 := by omega
        rcases hn with rfl | rfl
        · exact Nat.prime_two
        · exact Nat.prime_three
      · rw [if_neg h3] at h
        by_cases h23 : n % 2 = 0 ∨ n % 3 = 0
        · rw [if_pos h23] at h
          exact Bool.noConfusion h
        · rw [if_neg h23] at h
          push_neg at h23
          obtain ⟨h2m, h3m⟩ := h23
          by_contra hnp
          have hp := Nat.minFac_prime (show n ≠ 1 by omega)
          have hdvd := Nat.minFac_dvd n
          have hsq : n.minFac ^ 2 ≤ n := Nat.minFac_sq_le_self (by omega) hnp
          have hsq' : n.minFac * n.minFac ≤ n := by
            rw [pow_two] at hsq
            exact hsq
          have hnm : n % n.minFac = 0 := Nat.mod_eq_zero_of_dvd hdvd
          have hp2 : n.minFac % 2 ≠ 0 := by
            intro h0
            exact h2m (Nat.mod_eq_zero_of_dvd ((Nat.dvd_of_mod_eq_zero h0).trans hdvd))
          have hp3 : n.minFac % 3 ≠ 0 := by
            intro h0
            exact h3m (Nat.mod_eq_zero_of_dvd ((Nat.dvd_of_mod_eq_zero h0).trans hdvd))
          have hp5 : 5 ≤ n.minFac := by
            have := hp.two_le
            omega
          have h6 : n.minFac % 6 = 1 ∨ n.minFac % 6 = 5 := by omega
          rcases h6 with h6 | h6
          · obtain ⟨k, hk⟩ : ∃ k, n.minFac = 5 + 6 * k + 2 := ⟨(n.minFac - 7) / 6, by omega⟩
            have hbound : (5 + 6 * k) * (5 + 6 * k) ≤ n := by
              have hle : 5 + 6 * k ≤ n.minFac := by omega
              exact le_trans (Nat.mul_le_mul hle hle) hsq'
            have hf := trialLoop_false_of_divisorB n k 5 (by rw [← hk]; exact hnm) hbound
            rw [h] at hf
            exact Bool.noConfusion hf
          · obtain ⟨k, hk⟩ : ∃ k, n.minFac = 5 + 6 * k := ⟨(n.minFac - 5) / 6, by omega⟩
            have hbound : (5 + 6 * k) * (5 + 6 * k) ≤ n := by
              rw [← hk]
              exact hsq'
            have hf := trialLoop_false_of_divisorA n k 5 (by rw [← hk]; exact hnm) hbound
            rw [h] at hf
            exact Bool.noConfusion hf
  · intro hp
    have h2 := hp.two_le
    unfold isPrime
    rw [if_neg (show ¬ n ≤ 1 by omega)]
    by_cases h3 : n ≤ 3
    · rw [if_pos h3]
    · rw [if_neg h3]
      have h2m : n % 2 ≠ 0 := by
        intro h0
        rcases hp.eq_one_or_self_of_dvd 2 (Nat.dvd_of_mod_eq_zero h0) with h | h <;> omega
      have h3m : n % 3 ≠ 0 := by
        intro h0
        rcases hp.eq_one_or_self_of_dvd 3 (Nat.dvd_of_mod_eq_zero h0) with h | h <;> omega
      rw [if_neg (show ¬ (n % 2 = 0 ∨ n % 3 = 0) by tauto)]
      by_contra hf
      rw [Bool.not_eq_true] at hf
      obtain ⟨j, hj5, hjn, hjm⟩ := trialLoop_false_divisor n 5 (le_refl 5) hf
      rcases hp.eq_one_or_self_of_dvd j (Nat.dvd_of_mod_eq_zero hjm) with h | h <;> omega

/-- Explicit form of the CPU loop counters after `p` passes: the next
number to test, the iteration count, and the primes found among the
tested numbers `2 .. p + 1`. -/
lemma cpuLoop_spec : ∀ p, cpuLoop p =
    (p + 2, p, (List.range' 2 p).countP (fun m => isPrime m)) := by
  intro p
  induction p with
  | zero => rfl
  | succ p ih =>
      have hstep : cpuLoop (p + 1) =
          ((cpuLoop p).1 + 1, (cpuLoop p).2.1 + 1,
            if isPrime (cpuLoop p).1 then (cpuLoop p).2.2 + 1 else (cpuLoop p).2.2) := rfl
      rw [hstep, ih]
      simp only [List.range'_concat, List.countP_append, List.countP_cons, List.countP_nil]
      by_cases hpr : isPrime (p + 2) = true
      · simp only [hpr, if_true]
        have : 2 + 1 * p = p + 2 := by ring
        rw [this, hpr]
        simp
      · simp only [hpr, if_false]
        have : 2 + 1 * p = p + 2 := by ring
        rw [this]
        rw [Bool.not_eq_true] at hpr
        rw [hpr]
        simp

/-- Claim C7: the CPU phase's inner `isPrime` returns `true` exactly on
the primes, and after the loop has tested the integers `2 .. N` (i.e.
`p = N - 1` passes starting at 2), the reported `iterations` equals
`N - 1 = p` and `primesFound` equals the number of primes in `[2, N]`;
both counts are a pure function of the pass count. -/
theorem cpuTest_counts :
    (∀ n, isPrime n = true ↔ Nat.Prime n) ∧
    (∀ p, cpuLoop p =
      (p + 2, (p + 1) - 1, (List.range' 2 p).countP (fun m => decide (Nat.Prime m)))) := by
  constructor
  · exact isPrime_iff
  · intro p
    rw [cpuLoop_spec p]
    have hcong : (List.range' 2 p).countP (fun m => isPrime m) =
        (List.range' 2 p).countP (fun m => decide (Nat.Prime m)) :=
      List.countP_congr (fun m _ => by
        rw [decide_eq_true_eq]
        exact isPrime_iff m)
    rw [hcong]
    simp

end InfraProof
